import Mathlib

/-!
Verification of the autoconverter synchronization / transform-mapping engine
(`src/script.mjs`, the feature-complete iteration of the tool).

The JavaScript source is shallowly embedded: strings are Lean `String`s
(lists of characters), the two filesystem trees are finite trees of named
entries, the external `ffmpeg` invocation (`execSync`) is an oracle
`runner : String → String → Bool` telling whether the invocation for a
given (input, output) pair succeeds — `false` models a nonzero exit /
thrown error.  All definitions are executable and are transcribed from the
source file function by function.
-/

namespace Autoconverter

/-! ## String primitives modelling the JavaScript string operations -/

/-- Lower-case a character, modelling JavaScript `toLowerCase` on the
ASCII range used by filenames and tokens. -/
def lowerC (c : Char) : Char := c.toLower

/-- `containsL pat s` : does `pat` occur as a contiguous substring of `s`?
Models JavaScript `String.prototype.includes`. -/
def containsL (pat : List Char) : List Char → Bool
  | [] => pat.isEmpty
  | c :: t => pat.isPrefixOf (c :: t) || containsL pat t

/-- JavaScript `s.includes(pat)`. -/
def includesStr (s pat : String) : Bool := containsL pat.data s.data

/-- JavaScript `s.toLowerCase().includes(pat.toLowerCase())`, the
case-insensitive containment test used by the matcher. -/
def includesCI (s pat : String) : Bool :=
  containsL (pat.data.map lowerC) (s.data.map lowerC)

/-- Replace the first (leftmost) occurrence of `pat` by `rep`; if `pat`
does not occur the list is unchanged.  Models JavaScript
`String.prototype.replace` with a plain string pattern (case-sensitive,
first occurrence only). -/
def replaceFirstL (pat rep : List Char) : List Char → List Char
  | [] => if pat.isEmpty then rep else []
  | c :: t =>
    if pat.isPrefixOf (c :: t) then rep ++ (c :: t).drop pat.length
    else c :: replaceFirstL pat rep t

/-- JavaScript `s.replace(pat, rep)` with a string pattern. -/
def jsReplace (s pat rep : String) : String :=
  ⟨replaceFirstL pat.data rep.data s.data⟩

/-- Replace the first case-insensitive occurrence of `pat` by `rep`.
Models JavaScript `s.replace(new RegExp(pat, 'i'), rep)` for a pattern
without regular-expression metacharacters (the configured search tokens
such as `"_LED_"` are metacharacter-free, so the regex matches the literal
pattern case-insensitively). -/
def replaceFirstCIL (pat rep : List Char) : List Char → List Char
  | [] => if pat.isEmpty then rep else []
  | c :: t =>
    if (pat.map lowerC).isPrefixOf ((c :: t).map lowerC) then
      rep ++ (c :: t).drop pat.length
    else c :: replaceFirstCIL pat rep t

/-- JavaScript `s.replace(new RegExp(pat, 'i'), rep)`. -/
def jsReplaceCI (s pat rep : String) : String :=
  ⟨replaceFirstCIL pat.data rep.data s.data⟩

/-- `basename`, modelling Node `path.basename`: everything after the last
separator. -/
def basenameL (cs : List Char) : List Char :=
  (cs.reverse.takeWhile (fun c => c ≠ '/')).reverse

def basename (s : String) : String := ⟨basenameL s.data⟩

/-- `dirname`, modelling Node `path.dirname`: everything before the last
separator ("." when there is none). -/
def dirnameL (cs : List Char) : List Char :=
  ((cs.reverse.dropWhile (fun c => c ≠ '/')).drop 1).reverse

def dirname (s : String) : String :=
  if s.data.contains '/' then ⟨dirnameL s.data⟩ else "."

/-- JavaScript `s.startsWith(pre)`. -/
def startsWithStr (s pre : String) : Bool := pre.data.isPrefixOf s.data

/-- JavaScript `s.endsWith(suf)`. -/
def endsWithStr (s suf : String) : Bool := suf.data.isSuffixOf s.data

/-- Model of Node `path.join` for the path shapes arising in this
program: the left part has no trailing separator, the right part is a
(sub)path that is empty, absolute-looking (leading `/`), or a bare name;
`".."` segments never occur. -/
def pjoin (a b : String) : String :=
  if a = "" then b
  else if b = "" then a
  else if startsWithStr b "/" then a ++ b
  else a ++ "/" ++ b

def pjoin3 (a b c : String) : String := pjoin (pjoin a b) c

/-! Sanity checks for the string primitives, mirroring the JavaScript
behaviours they model. -/

example : jsReplaceCI "clip_led_1.mp4" "_LED_" "_LED256_" = "clip_LED256_1.mp4" := by decide
example : jsReplace "clip_LED256_1.mp4" "_LED256_" "_LED_" = "clip_LED_1.mp4" := by decide
example : jsReplace "abc" "zz" "y" = "abc" := by decide
example : includesCI "A_led_B" "_LED_" = true := by decide
example : includesStr "A_led_B" "_LED_" = false := by decide
example : basename "/src/sub/f.mp4" = "f.mp4" := by decide
example : dirname "/src/sub/f.mp4" = "/src/sub" := by decide
example : pjoin3 "/dst" "/sub" "f.mp4" = "/dst/sub/f.mp4" := by decide
example : pjoin3 "/dst" "" "f.mp4" = "/dst/f.mp4" := by decide

/-! ## Filesystem model

A directory's contents are a list of named entries in `readdirSync`
order; a tree is such a list.  `existsSync` is modelled by membership in
the absolute-path listing of a rooted tree. -/

inductive Entry where
  | file : String → Entry
  | dir : String → List Entry → Entry

/-- All absolute paths (with a directory flag) of a tree rooted at
`root`. -/
def listing (root : String) : List Entry → List (String × Bool)
  | [] => []
  | Entry.file n :: rest => (pjoin root n, false) :: listing root rest
  | Entry.dir n cs :: rest =>
    (pjoin root n, true) :: (listing (pjoin root n) cs ++ listing root rest)

/-- `fs.existsSync p` against the tree rooted at `root` (the root itself
exists: the configuration loader verified both roots). -/
def existsFS (root : String) (t : List Entry) (p : String) : Bool :=
  p == root || (listing root t).any (fun e => e.1 == p)

/-- Create the directory chain `ds` inside a tree (the effect of
`fs.mkdirSync(..., { recursive: true })`). -/
def insertDirs : List String → List Entry → List Entry
  | [], es => es
  | d :: ds, [] => [Entry.dir d (insertDirs ds [])]
  | d :: ds, Entry.dir n cs :: rest =>
    if n == d then Entry.dir n (insertDirs ds cs) :: rest
    else Entry.dir n cs :: insertDirs (d :: ds) rest
  | d :: ds, Entry.file n :: rest => Entry.file n :: insertDirs (d :: ds) rest

/-- Record a file created at relative directory `ds` with name `name`
(the effect of a successful `ffmpeg` run or `copyFileSync`), creating the
directory chain as needed. -/
def insertFile : List String → String → List Entry → List Entry
  | [], name, [] => [Entry.file name]
  | [], name, Entry.file n :: rest =>
    if n == name then Entry.file n :: rest
    else Entry.file n :: insertFile [] name rest
  | [], name, Entry.dir n cs :: rest => Entry.dir n cs :: insertFile [] name rest
  | d :: ds, name, [] => [Entry.dir d (insertFile ds name [])]
  | d :: ds, name, Entry.dir n cs :: rest =>
    if n == d then Entry.dir n (insertFile ds name cs) :: rest
    else Entry.dir n cs :: insertFile (d :: ds) name rest
  | d :: ds, name, Entry.file n :: rest =>
    Entry.file n :: insertFile (d :: ds) name rest

/-- The observable filesystem writes a pass can perform.  A `transform`
records an `ffmpeg` crop/scale/pad invocation of the per-screen loop, a
`convert` the plain `ffmpeg` transcode of the `noscreen` branch. -/
inductive Action where
  | transform : String → String → Action
  | convert : String → String → Action
  | copy : String → String → Action
  | mkdir : String → Action
  | unlink : String → Action
  | rmdir : String → Action
deriving DecidableEq, Repr

/-! ## Configuration (`loadConfig`, `src/script.mjs` lines 22–68) -/

/-- A fully loaded screen profile (one value of `CONF.screens`), after
`loadConfig` applied defaults and derived `cropratio`. -/
structure Screen where
  search : String
  target : String
  resolution : ℚ × ℚ
  v_scale : ℚ
  h_scale : ℚ
  player : ℚ × ℚ
  align : String
  force : Bool
  cropratio : ℚ
deriving DecidableEq

/-- A screen profile as it appears in `config.json`, before validation
and defaulting: optional fields absent (or JavaScript-falsy). -/
structure RawScreen where
  resolution : Option (ℚ × ℚ) := none
  search : Option String := none
  target : Option String := none
  v_scale : Option ℚ := none
  h_scale : Option ℚ := none
  player : Option (ℚ × ℚ) := none
  align : Option String := none
  force : Option Bool := none

/-- Per-screen part of `loadConfig` (lines 35–57): required keys
(`resolution`, `search`, `target`) missing or falsy abort the process
(`none`); `v_scale`/`h_scale` default to 1 (a falsy `0` is also replaced,
as in the source), `player` defaults to `resolution`, `align` to
`"center"`, `force` to `false`; `cropratio` is derived as
`resolution[0] / resolution[1]`. -/
def loadScreen (r : RawScreen) : Option Screen :=
  match r.resolution, r.search, r.target with
  | some res, some search, some target =>
    if search = "" ∨ target = "" then none
    else some
      { search := search
        target := target
        resolution := res
        v_scale := match r.v_scale with | none => 1 | some v => if v = 0 then 1 else v
        h_scale := match r.h_scale with | none => 1 | some v => if v = 0 then 1 else v
        player := r.player.getD res
        align := match r.align with | none => "center" | some a => if a = "" then "center" else a
        force := r.force.getD false
        cropratio := res.1 / res.2 }
  | _, _, _ => none

/-- The loaded configuration (`CONF`).  `screens` keeps the insertion
order of the configuration object, as `for (const key in CONF.screens)`
iterates it. -/
structure Config where
  source : String
  destination : String
  screens : List Screen
  force : Bool := false
  noscreen : Option String := none
  retry : ℚ := 0
deriving DecidableEq

/-- Lines 282–283: `CONF.force = false; for (...) CONF.screens[key].force
= false;` — the one-shot force flags are cleared. -/
def clearForce (cfg : Config) : Config :=
  { cfg with
    force := false
    screens := cfg.screens.map (fun s => { s with force := false }) }

/-! ## Per-file processing (`processFile`, lines 78–188) -/

/-- Result of a piece of the pass: the destination tree after its
writes, the writes it performed, and whether it completed without a
thrown error (`ok = false` models an `execSync` exception propagating —
nothing in the source catches it). -/
structure PRes where
  dest : List Entry
  acts : List Action
  ok : Bool

/-- JavaScript `filename.replace(/\.[^/.]+$/, ".mp4")` (line 172): swap
a nonempty final extension for `.mp4`, otherwise leave unchanged. -/
def replaceExtMp4 (s : String) : String :=
  let revExt := s.data.reverse.takeWhile (fun c => c ≠ '.' && c ≠ '/')
  match s.data.reverse.drop revExt.length with
  | '.' :: _ =>
    if revExt.isEmpty then s
    else ⟨(s.data.reverse.drop (revExt.length + 1)).reverse ++ ".mp4".data⟩
  | _ => s

/-- The per-screen loop of `processFile` (lines 106–151): for each screen
whose `search` occurs case-insensitively in `filename`, compute the
output path, skip it when it already exists and no force flag is set,
otherwise create the destination directory if missing and invoke the
executor; a failed invocation throws, aborting the loop (and the whole
pass).  `relDir` is the source-relative directory of the file as
components, used to record creations in the destination tree (it mirrors
the string `folder`). -/
def processScreens (cfg : Config) (runner : String → String → Bool)
    (filePath folder filename : String) (relDir : List String) :
    List Screen → List Entry → PRes
  | [], dest => ⟨dest, [], true⟩
  | s :: rest, dest =>
    if ¬ includesCI filename s.search then
      processScreens cfg runner filePath folder filename relDir rest dest
    else
      let outputFilename := jsReplaceCI filename s.search s.target
      let outputPath := pjoin3 cfg.destination folder outputFilename
      if existsFS cfg.destination dest outputPath && !cfg.force && !s.force then
        processScreens cfg runner filePath folder filename relDir rest dest
      else
        let outputFolder := dirname outputPath
        let mk : List Entry × List Action :=
          if existsFS cfg.destination dest outputFolder then (dest, [])
          else (insertDirs relDir dest, [Action.mkdir outputFolder])
        if runner filePath outputPath then
          let dest2 := insertFile relDir outputFilename mk.1
          let r := processScreens cfg runner filePath folder filename relDir rest dest2
          ⟨r.dest, mk.2 ++ [Action.transform filePath outputPath] ++ r.acts, r.ok⟩
        else
          ⟨mk.1, mk.2 ++ [Action.transform filePath outputPath], false⟩

/-- The `noscreen` branch of `processFile` (lines 153–187), reached when
no screen's search token matched: copy the file verbatim when
`CONF.noscreen == 'copy'` **or** the name does not end in `.mp4`;
otherwise transcode it to `.mp4` when `CONF.noscreen == 'convert'`;
otherwise skip. -/
def noscreenStep (cfg : Config) (runner : String → String → Bool)
    (filePath folder filename : String) (relDir : List String)
    (dest : List Entry) : PRes :=
  if (cfg.noscreen == some "copy") || !(endsWithStr filename ".mp4") then
    let outputPath := pjoin3 cfg.destination folder filename
    if existsFS cfg.destination dest outputPath && !cfg.force then ⟨dest, [], true⟩
    else
      let outputFolder := dirname outputPath
      let mk : List Entry × List Action :=
        if existsFS cfg.destination dest outputFolder then (dest, [])
        else (insertDirs relDir dest, [Action.mkdir outputFolder])
      ⟨insertFile relDir filename mk.1, mk.2 ++ [Action.copy filePath outputPath], true⟩
  else if cfg.noscreen == some "convert" then
    let outputFilename := replaceExtMp4 filename
    let outputPath := pjoin3 cfg.destination folder outputFilename
    if existsFS cfg.destination dest outputPath && !cfg.force then ⟨dest, [], true⟩
    else
      let outputFolder := dirname outputPath
      let mk : List Entry × List Action :=
        if existsFS cfg.destination dest outputFolder then (dest, [])
        else (insertDirs relDir dest, [Action.mkdir outputFolder])
      if runner filePath outputPath then
        ⟨insertFile relDir outputFilename mk.1, mk.2 ++ [Action.convert filePath outputPath], true⟩
      else ⟨mk.1, mk.2 ++ [Action.convert filePath outputPath], false⟩
  else ⟨dest, [], true⟩

/-- `processFile` (lines 78–188).  `srcTree` is the source tree (for the
`existsSync(filePath)` check), `dest` the current destination tree.  The
already-processed check — the filename contains some screen's `target`
case-insensitively — runs before the screen loop and returns immediately.
After the loop, `noscreen` is true exactly when no screen's `search`
matched the filename. -/
def processFile (cfg : Config) (runner : String → String → Bool)
    (srcTree : List Entry) (relDir : List String) (filePath : String)
    (dest : List Entry) : PRes :=
  if filePath = "" then ⟨dest, [], true⟩
  else
    let filename := basename filePath
    let folder := jsReplace (dirname filePath) cfg.source ""
    if ¬ existsFS cfg.source srcTree filePath then ⟨dest, [], true⟩
    else if cfg.screens.any (fun s => includesCI filename s.target) then
      ⟨dest, [], true⟩
    else
      let r := processScreens cfg runner filePath folder filename relDir cfg.screens dest
      if !r.ok then r
      else if cfg.screens.any (fun s => includesCI filename s.search) then r
      else
        let r2 := noscreenStep cfg runner filePath folder filename relDir r.dest
        ⟨r2.dest, r.acts ++ r2.acts, r2.ok⟩

/-- `processSource` (lines 192–207): depth-first walk of the source
tree, skipping hidden entries and sync-transient names; a thrown error
propagates out of the `forEach`, aborting the remaining entries. -/
def processSource (cfg : Config) (runner : String → String → Bool)
    (srcTree : List Entry) :
    String → List String → List Entry → List Entry → PRes
  | _, _, [], dest => ⟨dest, [], true⟩
  | curDir, relDir, e :: rest, dest =>
    let name := match e with | Entry.file n => n | Entry.dir n _ => n
    if startsWithStr name "." || includesStr name "sync-conflict"
        || includesStr name "syncthing" then
      processSource cfg runner srcTree curDir relDir rest dest
    else
      match e with
      | Entry.dir n cs =>
        let r := processSource cfg runner srcTree (pjoin curDir n) (relDir ++ [n]) cs dest
        if !r.ok then r
        else
          let r2 := processSource cfg runner srcTree curDir relDir rest r.dest
          ⟨r2.dest, r.acts ++ r2.acts, r2.ok⟩
      | Entry.file n =>
        let r := processFile cfg runner srcTree relDir (pjoin curDir n) dest
        if !r.ok then r
        else
          let r2 := processSource cfg runner srcTree curDir relDir rest r.dest
          ⟨r2.dest, r.acts ++ r2.acts, r2.ok⟩

/-- The conjectured source of a destination file named `n` in the
destination directory `d` (lines 220 and 232–235): swap the
destination-root prefix for the source root, then substitute **every**
screen's `target` back to that screen's `search`, cumulatively in table
order; each substitution is `String.prototype.replace` with a string
pattern, hence case-sensitive and first-occurrence-only, applied to the
whole path string. -/
def inverseSourcePath (cfg : Config) (d n : String) : String :=
  cfg.screens.foldl (fun sp s => jsReplace sp s.target s.search)
    (pjoin (jsReplace d cfg.destination cfg.source) n)

/-- `cleanDestination` (lines 211–243): walk the destination tree rooted
at the current directory string `d`.  A subdirectory whose mirrored
source directory (destination-root prefix swapped for the source root,
no token substitution) does not exist is removed recursively; otherwise
it is reconciled recursively.  A file's conjectured source is its
mirrored path with **every** screen's `target` substituted back to that
screen's `search`, cumulatively in table order (case-sensitive, first
occurrence each); if nothing exists there, the file is removed. -/
def cleanDestination (cfg : Config) (srcTree : List Entry) :
    String → List Entry → List Entry × List Action
  | _, [] => ([], [])
  | d, Entry.dir n cs :: rest =>
    let filePath := pjoin d n
    let sourcePath := pjoin (jsReplace d cfg.destination cfg.source) n
    if ¬ existsFS cfg.source srcTree sourcePath then
      let r := cleanDestination cfg srcTree d rest
      (r.1, Action.rmdir filePath :: r.2)
    else
      let rc := cleanDestination cfg srcTree filePath cs
      let r := cleanDestination cfg srcTree d rest
      (Entry.dir n rc.1 :: r.1, rc.2 ++ r.2)
  | d, Entry.file n :: rest =>
    let filePath := pjoin d n
    let sourcePath := inverseSourcePath cfg d n
    if ¬ existsFS cfg.source srcTree sourcePath then
      let r := cleanDestination cfg srcTree d rest
      (r.1, Action.unlink filePath :: r.2)
    else
      let r := cleanDestination cfg srcTree d rest
      (Entry.file n :: r.1, r.2)

/-! ## The run scheduler (`run`, lines 245–289) -/

/-- Process-level mutable state: the `isRunning` guard, the (mutable)
configuration holding the one-shot force flags, and the destination
tree. -/
structure St where
  isRunning : Bool
  cfg : Config
  dest : List Entry

/-- One pass body (lines 272–276): reconcile the destination, then walk
the source. -/
def passRun (runner : String → String → Bool) (srcTree : List Entry)
    (cfg : Config) (dest : List Entry) : PRes :=
  let c := cleanDestination cfg srcTree cfg.destination dest
  let r := processSource cfg runner srcTree cfg.source [] srcTree c.1
  ⟨r.dest, c.2 ++ r.acts, r.ok⟩

/-- One trigger of `run()` (lines 250–289): a no-op while already
running; otherwise the pass body executes, and only if it completes
without a thrown error are `isRunning` reset and the force flags cleared
(there is no `try`/`finally` in the source — an escaping exception leaves
`isRunning` set and the flags untouched). -/
def runOnce (runner : String → String → Bool) (srcTree : List Entry)
    (st : St) : St × List Action :=
  if st.isRunning then (st, [])
  else
    let r := passRun runner srcTree st.cfg st.dest
    if r.ok then
      ({ isRunning := false, cfg := clearForce st.cfg, dest := r.dest }, r.acts)
    else
      ({ isRunning := true, cfg := st.cfg, dest := r.dest }, r.acts)

/-- A sequence of `n` triggers (manual keypresses or timer firings),
collecting all writes. -/
def runTriggers (runner : String → String → Bool) (srcTree : List Entry) :
    Nat → St → St × List Action
  | 0, st => (st, [])
  | n + 1, st =>
    let p := runOnce runner srcTree st
    let q := runTriggers runner srcTree n p.1
    (q.1, p.2 ++ q.2)

/-! ## Derived notions used by the claims -/

/-- The destination path computed for a matching screen (the composition
of lines 82–83, 114 and 117): the basename with the first
case-insensitive occurrence of `search` replaced by `target`, joined
below the destination root under the source-relative directory. -/
def destinationPathOf (cfg : Config) (s : Screen) (filePath : String) : String :=
  pjoin3 cfg.destination (jsReplace (dirname filePath) cfg.source "")
    (jsReplaceCI (basename filePath) s.search s.target)

/-- Which path (if any) an action deletes. -/
def deleteTarget : Action → Option String
  | Action.unlink p => some p
  | Action.rmdir p => some p
  | _ => none

/-- The spec's version of the inverse mapping ("Modelled from the spec":
substitute each profile's targetToken back to its searchPattern,
**independently** per profile in table order, and accept the first
substitution that yields a path existing under the source root).  Kept
for comparison with `inverseSourcePath`, which is what the code
computes. -/
def sourceCandidateSpec (cfg : Config) (srcTree : List Entry)
    (destPath : String) : Option String :=
  let sp0 := jsReplace destPath cfg.destination cfg.source
  cfg.screens.findSome? fun s =>
    let c := jsReplace sp0 s.target s.search
    if existsFS cfg.source srcTree c then some c else none

/-! ## Concrete fixtures used by counterexamples and witnesses -/

/-- The `256` profile of the spec's scenario section. -/
def screenLED : Screen :=
  { search := "_LED_", target := "_LED256_", resolution := (256, 256),
    v_scale := 1, h_scale := 1, player := (256, 256), align := "center",
    force := false, cropratio := 1 }

def cfgLED : Config :=
  { source := "/src", destination := "/dst", screens := [screenLED] }

/-- A source tree holding one matching clip whose search token appears
in lower case. -/
def srcLED : List Entry := [Entry.file "clip_led_1.mp4"]

/-- An executor that always succeeds. -/
def runnerT : String → String → Bool := fun _ _ => true

/-- An executor that always fails. -/
def runnerF : String → String → Bool := fun _ _ => false

def stLED : St := { isRunning := false, cfg := cfgLED, dest := [] }

/-- Two profiles matching the same `_A_` token. -/
def screenA1 : Screen :=
  { search := "_A_", target := "_A1_", resolution := (64, 64),
    v_scale := 1, h_scale := 1, player := (64, 64), align := "center",
    force := false, cropratio := 1 }

def screenA2 : Screen :=
  { search := "_A_", target := "_A2_", resolution := (128, 128),
    v_scale := 1, h_scale := 1, player := (128, 128), align := "center",
    force := false, cropratio := 1 }

def cfgA : Config :=
  { source := "/src", destination := "/dst", screens := [screenA1, screenA2] }

def srcA : List Entry := [Entry.file "f_A_.mp4", Entry.file "g_A_.mp4"]

/-- An executor failing exactly on the first profile's outputs. -/
def runnerFailA1 : String → String → Bool := fun _ out => !(includesStr out "_A1_")

/-- Profiles whose search/target tokens overlap: the second profile's
`target` is the first profile's `search`. -/
def screenS1 : Screen :=
  { search := "_S1_", target := "_T_", resolution := (64, 64),
    v_scale := 1, h_scale := 1, player := (64, 64), align := "center",
    force := false, cropratio := 1 }

def screenS2 : Screen :=
  { search := "_Z_", target := "_S1_", resolution := (64, 64),
    v_scale := 1, h_scale := 1, player := (64, 64), align := "center",
    force := false, cropratio := 1 }

def cfgS : Config :=
  { source := "/src", destination := "/dst", screens := [screenS1, screenS2] }

def srcS : List Entry := [Entry.file "f_S1_.mp4"]

/-- A state whose destination holds an orphaned artifact (deleted by the
next reconciliation). -/
def stS : St :=
  { isRunning := false, cfg := cfgS, dest := [Entry.file "f_T_.mp4"] }

/-- A raw profile with non-unit scales, for the cropratio claim. -/
def rawC3 : RawScreen :=
  { resolution := some (256, 256), search := some "_A_", target := some "_B_",
    h_scale := some 2, v_scale := some 1 }

/-- A configuration with both force flags set. -/
def cfgForce : Config :=
  { source := "/src", destination := "/dst",
    screens := [{ screenLED with force := true }], force := true }

def stForce : St := { isRunning := false, cfg := cfgForce, dest := [] }

def src5 : List Entry := [Entry.file "photo.png"]

def cfg5 : Config :=
  { source := "/src", destination := "/dst", screens := [screenLED] }

/-- A source tree with a single `.mp4` file matching no profile. -/
def srcM : List Entry := [Entry.file "movie.mp4"]

/-! ## Sanity checks of the string primitives -/

example : jsReplaceCI "clip_led_1.mp4" "_LED_" "_LED256_" = "clip_LED256_1.mp4" := by decide
example : jsReplace "clip_LED256_1.mp4" "_LED256_" "_LED_" = "clip_LED_1.mp4" := by decide
example : jsReplace "abc" "zz" "y" = "abc" := by decide
example : includesCI "A_led_B" "_LED_" = true := by decide
example : includesStr "A_led_B" "_LED_" = false := by decide
example : basename "/src/sub/f.mp4" = "f.mp4" := by decide
example : dirname "/src/sub/f.mp4" = "/src/sub" := by decide
example : replaceExtMp4 "clip.mov" = "clip.mp4" := by decide
example : replaceExtMp4 "noext" = "noext" := by decide

/-! ## General helper lemmas -/

/-- Once the scheduler guard is set, every further trigger is a no-op. -/
theorem runTriggers_stuck (runner : String → String → Bool)
    (srcTree : List Entry) (n : Nat) (st : St) (h : st.isRunning = true) :
    runTriggers runner srcTree n st = (st, []) := by
  induction n with
  | zero => rfl
  | succ k ih => simp [runTriggers, runOnce, h, ih]

/-! ## C8: a filename containing any target token is never processed -/

/-- C8: for every filename that contains any profile's targetToken
case-insensitively, `processFile` is a no-op — the already-processed
check runs before profile matching, so no destination artifact, copy or
conversion is produced from such a file. -/
theorem already_processed_never_transformed (cfg : Config)
    (runner : String → String → Bool) (srcTree : List Entry)
    (relDir : List String) (filePath : String) (dest : List Entry)
    (h : cfg.screens.any (fun s => includesCI (basename filePath) s.target) = true) :
    processFile cfg runner srcTree relDir filePath dest = ⟨dest, [], true⟩ := by
  unfold processFile
  split
  · rfl
  · split
    · rfl
    · simp [h]

/-- C8 witness: `clip_led256_2.mp4` contains the target `_LED256_`
case-insensitively and is left untouched. -/
theorem already_processed_never_transformed_witness :
    (cfgLED.screens.any
      (fun s => includesCI (basename "/src/clip_led256_2.mp4") s.target) = true)
    ∧ processFile cfgLED runnerT srcLED [] "/src/clip_led256_2.mp4" []
        = ⟨[], [], true⟩ :=
  ⟨by decide,
   already_processed_never_transformed cfgLED runnerT srcLED [] _ [] (by decide)⟩

/-! ## C10: an escaping exception wedges the scheduler -/

/-- C10: when the pass body throws (here: `passRun` aborts), `isRunning`
is left `true`, and every subsequent trigger — manual or scheduled — is
a no-op forever: no later pass executes and no further writes happen. -/
theorem exception_wedges_scheduler (runner : String → String → Bool)
    (srcTree : List Entry) (st : St) (h1 : st.isRunning = false)
    (h2 : (passRun runner srcTree st.cfg st.dest).ok = false) :
    (runOnce runner srcTree st).1.isRunning = true
    ∧ ∀ n : Nat, runTriggers runner srcTree n (runOnce runner srcTree st).1
        = ((runOnce runner srcTree st).1, []) := by
  have hr : (runOnce runner srcTree st).1.isRunning = true := by
    simp [runOnce, h1, h2]
  exact ⟨hr, fun n => runTriggers_stuck runner srcTree n _ hr⟩

/-- C10 witness: a pass with an always-failing executor aborts and
leaves the guard set. -/
theorem exception_wedges_scheduler_witness :
    ((stLED.isRunning = false)
      ∧ (passRun runnerF srcLED stLED.cfg stLED.dest).ok = false)
    ∧ (runOnce runnerF srcLED stLED).1.isRunning = true := by
  have h1 : stLED.isRunning = false := by decide
  have h2 : (passRun runnerF srcLED stLED.cfg stLED.dest).ok = false := by
    simp [passRun, cleanDestination, processSource, processFile, processScreens,
      noscreenStep, listing, existsFS, insertDirs, insertFile, stLED, cfgLED,
      srcLED, screenLED, runnerF, pjoin, pjoin3, basename, dirname, basenameL,
      dirnameL, jsReplace, jsReplaceCI, includesCI, includesStr, containsL,
      replaceFirstL, replaceFirstCIL, lowerC, startsWithStr, endsWithStr,
      inverseSourcePath]
  exact ⟨⟨h1, h2⟩, (exception_wedges_scheduler runnerF srcLED stLED h1 h2).1⟩

/-! ## C3: the derived cropratio -/

/-- C3 counterexample: for resolution 256×256 with horizontalScale 2 and
verticalScale 1, the loaded cropratio is `256/256 = 1`, not the claimed
`(256*2)/(256*1) = 2` — the scales do not enter the computation
(line 56 of the source). -/
theorem cropratio_ignores_scales_counterexample :
    (loadScreen rawC3).map Screen.cropratio = some 1
    ∧ ((256 : ℚ) * 2) / ((256 : ℚ) * 1) ≠ (1 : ℚ) := by
  constructor
  · simp [loadScreen, rawC3]
  · norm_num

/-- C3 amended: for every profile in the loaded table, cropRatio equals
`targetResolution.width / targetResolution.height` — the scales are not
involved — computed once at configuration load; the only later mutation
of the screen table (force clearing) preserves every cropratio. -/
theorem cropratio_width_over_height (r : RawScreen) (res : ℚ × ℚ) (s : Screen)
    (hres : r.resolution = some res) (h : loadScreen r = some s) :
    s.cropratio = res.1 / res.2
    ∧ ∀ cfg : Config,
        (clearForce cfg).screens.map Screen.cropratio
          = cfg.screens.map Screen.cropratio := by
  constructor
  · rw [loadScreen, hres] at h
    rcases hs : r.search with _ | search <;> rw [hs] at h
    · simp at h
    · rcases ht : r.target with _ | target <;> rw [ht] at h
      · simp at h
      · simp at h
        rcases h with ⟨-, rfl⟩
        rfl
  · intro cfg
    simp [clearForce, List.map_map]

/-- C3 amended witness. -/
theorem cropratio_width_over_height_witness :
    (rawC3.resolution = some ((256 : ℚ), (256 : ℚ)))
    ∧ ∃ s, loadScreen rawC3 = some s ∧ s.cropratio = (256 : ℚ) / 256 := by
  refine ⟨rfl, ?_⟩
  cases hs : loadScreen rawC3 with
  | none => simp [loadScreen, rawC3] at hs
  | some s =>
    exact ⟨s, rfl, (cropratio_width_over_height rawC3 (256, 256) s rfl hs).1⟩

/-! ## C4: clearing of the one-shot force flags -/

/-- C4 counterexample: a pass aborted by an executor failure leaves both
the global and the profile-level force flags set — they are cleared only
after the pass body, with no `finally`. -/
theorem force_survives_failed_pass_counterexample :
    ((runOnce runnerF srcLED stForce).1).cfg.force = true
    ∧ ∃ s ∈ ((runOnce runnerF srcLED stForce).1).cfg.screens, s.force = true := by
  constructor <;>
  simp [runOnce, passRun, cleanDestination, processSource, processFile,
    processScreens, noscreenStep, listing, existsFS, insertDirs, insertFile,
    stForce, cfgForce, srcLED, screenLED, runnerF, pjoin, pjoin3, basename,
    dirname, basenameL, dirnameL, jsReplace, jsReplaceCI, includesCI,
    includesStr, containsL, replaceFirstL, replaceFirstCIL, lowerC,
    startsWithStr, endsWithStr, clearForce, inverseSourcePath]

/-- C4 amended: after every pass that runs to completion (no escaping
exception), the global force flag and every profile-level force flag are
cleared; a pass that aborts leaves them untouched (see the
counterexample), so force persists until the first completed pass. -/
theorem force_cleared_on_completed_pass (runner : String → String → Bool)
    (srcTree : List Entry) (st : St) (h1 : st.isRunning = false)
    (h2 : (passRun runner srcTree st.cfg st.dest).ok = true) :
    (runOnce runner srcTree st).1.cfg.force = false
    ∧ ∀ s ∈ (runOnce runner srcTree st).1.cfg.screens, s.force = false := by
  constructor
  · simp [runOnce, h1, h2, clearForce]
  · intro s hs
    simp [runOnce, h1, h2, clearForce] at hs
    obtain ⟨t, _, rfl⟩ := hs
    rfl

/-- C4 amended witness. -/
theorem force_cleared_on_completed_pass_witness :
    ((stLED.isRunning = false)
      ∧ (passRun runnerT srcLED stLED.cfg stLED.dest).ok = true)
    ∧ (runOnce runnerT srcLED stLED).1.cfg.force = false := by
  have h1 : stLED.isRunning = false := by decide
  have h2 : (passRun runnerT srcLED stLED.cfg stLED.dest).ok = true := by
    simp [passRun, cleanDestination, processSource, processFile, processScreens,
      noscreenStep, listing, existsFS, insertDirs, insertFile, stLED, cfgLED,
      srcLED, screenLED, runnerT, pjoin, pjoin3, basename, dirname, basenameL,
      dirnameL, jsReplace, jsReplaceCI, includesCI, includesStr, containsL,
      replaceFirstL, replaceFirstCIL, lowerC, startsWithStr, endsWithStr,
      inverseSourcePath]
  exact ⟨⟨h1, h2⟩, (force_cleared_on_completed_pass runnerT srcLED stLED h1 h2).1⟩

/-! ## C1: executor failures are not contained -/

/-- An abort inside a prefix of the screen list freezes processing: the
screens after the abort point contribute nothing. -/
theorem processScreens_append_of_abort (cfg : Config)
    (runner : String → String → Bool) (fp fo fn : String)
    (relDir : List String) (ss1 ss2 : List Screen) (dest : List Entry)
    (h : (processScreens cfg runner fp fo fn relDir ss1 dest).ok = false) :
    processScreens cfg runner fp fo fn relDir (ss1 ++ ss2) dest
      = processScreens cfg runner fp fo fn relDir ss1 dest := by
  induction ss1 generalizing dest with
  | nil => simp [processScreens] at h
  | cons s rest ih =>
    by_cases hm : includesCI fn s.search
    · by_cases hx : (existsFS cfg.destination dest
          (pjoin3 cfg.destination fo (jsReplaceCI fn s.search s.target))
          && !cfg.force && !s.force) = true
      · simp only [List.cons_append, processScreens, hm, hx] at h ⊢
        simp only [not_true, Bool.not_eq_true, if_true, if_false] at h ⊢
        exact ih dest h
      · by_cases hr : runner fp
          (pjoin3 cfg.destination fo (jsReplaceCI fn s.search s.target)) = true
        · simp only [List.cons_append, processScreens, hm, hx, hr] at h ⊢
          simp at h ⊢
          rw [ih _ h]
          exact ⟨rfl, rfl, rfl⟩
        · simp only [List.cons_append, processScreens, hm, hx, hr] at h ⊢
          simp only [Bool.not_eq_true] at hr
          simp [hr]
    · simp only [List.cons_append, processScreens, hm] at h ⊢
      simp only [Bool.not_eq_true, not_false_iff, if_true] at h ⊢
      exact ih dest h

/-- An abort inside a prefix of a directory's entries freezes the walk:
the entries after the abort point are not visited. -/
theorem processSource_append_of_abort (cfg : Config)
    (runner : String → String → Bool) (srcTree : List Entry)
    (curDir : String) (relDir : List String) (es1 es2 : List Entry)
    (dest : List Entry)
    (h : (processSource cfg runner srcTree curDir relDir es1 dest).ok = false) :
    processSource cfg runner srcTree curDir relDir (es1 ++ es2) dest
      = processSource cfg runner srcTree curDir relDir es1 dest := by
  induction es1 generalizing dest with
  | nil => simp [processSource] at h
  | cons e rest ih =>
    rcases e with n | ⟨n, cs⟩
    · by_cases hskip : (startsWithStr n "." || includesStr n "sync-conflict"
          || includesStr n "syncthing") = true
      · simp only [List.cons_append, processSource, hskip] at h ⊢
        simp at h ⊢
        exact ih dest h
      · by_cases hok : (processFile cfg runner srcTree relDir (pjoin curDir n) dest).ok = true
        · simp only [List.cons_append, processSource, hskip, hok] at h ⊢
          simp [hok] at h ⊢
          rw [ih _ h]
          exact ⟨rfl, rfl, rfl⟩
        · simp only [List.cons_append, processSource, hskip] at h ⊢
          simp only [Bool.not_eq_true] at hok
          simp [hok] at h ⊢
    · by_cases hskip : (startsWithStr n "." || includesStr n "sync-conflict"
          || includesStr n "syncthing") = true
      · simp only [List.cons_append, processSource, hskip] at h ⊢
        simp at h ⊢
        exact ih dest h
      · by_cases hok : (processSource cfg runner srcTree (pjoin curDir n)
            (relDir ++ [n]) cs dest).ok = true
        · simp only [List.cons_append, processSource, hskip, hok] at h ⊢
          simp [hok] at h ⊢
          rw [ih _ h]
          exact ⟨rfl, rfl, rfl⟩
        · simp only [List.cons_append, processSource, hskip] at h ⊢
          simp only [Bool.not_eq_true] at hok
          simp [hok] at h ⊢

/-- C1 counterexample: with two profiles matching `f_A_.mp4` and the
executor failing on the first profile's output, the pass aborts — the
second profile's transform is never attempted (only the failed `_A1_`
invocation appears) and the remaining file `g_A_.mp4` is never visited,
refuting "the error is reported for that one file only and the pass does
not abort". -/
theorem executor_failure_not_contained_counterexample :
    (processSource cfgA runnerFailA1 srcA "/src" [] srcA []).ok = false
    ∧ (processSource cfgA runnerFailA1 srcA "/src" [] srcA []).acts
        = [Action.transform "/src/f_A_.mp4" "/dst/f_A1_.mp4"] := by
  constructor <;>
  simp [processSource, processFile, processScreens, noscreenStep, listing,
    existsFS, insertDirs, insertFile, cfgA, srcA, screenA1, screenA2,
    runnerFailA1, pjoin, pjoin3, basename, dirname, basenameL, dirnameL,
    jsReplace, jsReplaceCI, includesCI, includesStr, containsL,
    replaceFirstL, replaceFirstCIL, lowerC, startsWithStr, endsWithStr]

/-- C1 amended: an executor failure (nonzero exit or thrown error) is
**not** contained to the failing file: the exception propagates and
aborts the pass — the remaining profiles of that file and the remaining
files of the walk are not processed.  Formally, when processing of a
prefix of the screen table (resp. of a directory's entries) aborts,
appending further screens (resp. entries) does not change the result. -/
theorem executor_failure_aborts_pass :
    (∀ (cfg : Config) (runner : String → String → Bool) (fp fo fn : String)
      (relDir : List String) (ss1 ss2 : List Screen) (dest : List Entry),
      (processScreens cfg runner fp fo fn relDir ss1 dest).ok = false →
      processScreens cfg runner fp fo fn relDir (ss1 ++ ss2) dest
        = processScreens cfg runner fp fo fn relDir ss1 dest)
    ∧ (∀ (cfg : Config) (runner : String → String → Bool)
      (srcTree : List Entry) (curDir : String) (relDir : List String)
      (es1 es2 : List Entry) (dest : List Entry),
      (processSource cfg runner srcTree curDir relDir es1 dest).ok = false →
      processSource cfg runner srcTree curDir relDir (es1 ++ es2) dest
        = processSource cfg runner srcTree curDir relDir es1 dest) :=
  ⟨fun cfg runner fp fo fn relDir ss1 ss2 dest h =>
    processScreens_append_of_abort cfg runner fp fo fn relDir ss1 ss2 dest h,
   fun cfg runner srcTree curDir relDir es1 es2 dest h =>
    processSource_append_of_abort cfg runner srcTree curDir relDir es1 es2 dest h⟩

/-- C1 amended witness: concrete abort, at both the screen-list and the
walk level. -/
theorem executor_failure_aborts_pass_witness :
    ((processScreens cfgA runnerFailA1 "/src/f_A_.mp4" "" "f_A_.mp4" []
        [screenA1] []).ok = false
      ∧ processScreens cfgA runnerFailA1 "/src/f_A_.mp4" "" "f_A_.mp4" []
          ([screenA1] ++ [screenA2]) []
        = processScreens cfgA runnerFailA1 "/src/f_A_.mp4" "" "f_A_.mp4" []
            [screenA1] [])
    ∧ ((processSource cfgA runnerFailA1 srcA "/src" []
        [Entry.file "f_A_.mp4"] []).ok = false
      ∧ processSource cfgA runnerFailA1 srcA "/src" []
          ([Entry.file "f_A_.mp4"] ++ [Entry.file "g_A_.mp4"]) []
        = processSource cfgA runnerFailA1 srcA "/src" []
            [Entry.file "f_A_.mp4"] []) := by
  have h1 : (processScreens cfgA runnerFailA1 "/src/f_A_.mp4" "" "f_A_.mp4" []
      [screenA1] []).ok = false := by
    simp [processScreens, listing, existsFS, insertDirs, insertFile, cfgA,
      screenA1, runnerFailA1, pjoin, pjoin3, dirname, dirnameL, jsReplaceCI,
      includesCI, includesStr, containsL, replaceFirstCIL, replaceFirstL,
      lowerC, startsWithStr]
  have h2 : (processSource cfgA runnerFailA1 srcA "/src" []
      [Entry.file "f_A_.mp4"] []).ok = false := by
    simp [processSource, processFile, processScreens, noscreenStep, listing,
      existsFS, insertDirs, insertFile, cfgA, srcA, screenA1, screenA2,
      runnerFailA1, pjoin, pjoin3, basename, dirname, basenameL, dirnameL,
      jsReplace, jsReplaceCI, includesCI, includesStr, containsL,
      replaceFirstL, replaceFirstCIL, lowerC, startsWithStr, endsWithStr]
  exact ⟨⟨h1, executor_failure_aborts_pass.1 cfgA runnerFailA1 "/src/f_A_.mp4"
          "" "f_A_.mp4" [] [screenA1] [screenA2] [] h1⟩,
         ⟨h2, executor_failure_aborts_pass.2 cfgA runnerFailA1 srcA "/src" []
          [Entry.file "f_A_.mp4"] [Entry.file "g_A_.mp4"] [] h2⟩⟩


/-! ## C5: the noscreen branch -/

/-- When no screen's search token matches, the per-screen loop is a
no-op. -/
theorem processScreens_no_match (cfg : Config)
    (runner : String → String → Bool) (fp fo fn : String)
    (relDir : List String) (ss : List Screen) (dest : List Entry)
    (h : ∀ s ∈ ss, includesCI fn s.search = false) :
    processScreens cfg runner fp fo fn relDir ss dest = ⟨dest, [], true⟩ := by
  induction ss with
  | nil => rfl
  | cons s rest ih =>
    have hs := h s (List.mem_cons_self s rest)
    simp only [processScreens, hs]
    simp only [Bool.false_eq_true, not_false_iff, if_true]
    exact ih (fun t ht => h t (List.mem_cons_of_mem s ht))

/-- C5 amended: complete characterization of the `noscreen` branch for
a source file matching no profile (and not already-processed).  When
`noscreen` is absent, `.mp4` files are skipped with nothing written,
but files **not** ending in `.mp4` are copied verbatim regardless of
`noscreen`.  Each leaf of the branch is pinned exactly: the copy leaf
(engaged precisely when `noscreen` is `'copy'` or the name does not end
in `.mp4`) writes an optional `mkdir` and one copy — nothing else; the
convert leaf (engaged precisely when `noscreen` is `'convert'` and the
name ends in `.mp4`) writes an optional `mkdir` and one transcode —
nothing else; every other leaf writes nothing.  Hence copying happens
only in the copy leaf and transcoding without cropping only in the
convert leaf. -/
theorem noscreen_behaviour (cfg : Config) (runner : String → String → Bool)
    (srcTree : List Entry) (relDir : List String) (filePath : String)
    (dest : List Entry)
    (h0 : filePath ≠ "")
    (h1 : existsFS cfg.source srcTree filePath = true)
    (h2 : ∀ s ∈ cfg.screens, includesCI (basename filePath) s.target = false)
    (h3 : ∀ s ∈ cfg.screens, includesCI (basename filePath) s.search = false) :
    (cfg.noscreen = none → endsWithStr (basename filePath) ".mp4" = true →
      processFile cfg runner srcTree relDir filePath dest = ⟨dest, [], true⟩)
    ∧ ((cfg.noscreen = some "copy" ∨ endsWithStr (basename filePath) ".mp4" = false) →
      (existsFS cfg.destination dest
          (pjoin3 cfg.destination (jsReplace (dirname filePath) cfg.source "")
            (basename filePath)) && !cfg.force) = false →
      (processFile cfg runner srcTree relDir filePath dest).acts
        = (if existsFS cfg.destination dest
              (dirname (pjoin3 cfg.destination
                (jsReplace (dirname filePath) cfg.source "")
                (basename filePath))) = true then ([] : List Action)
           else [Action.mkdir (dirname (pjoin3 cfg.destination
                (jsReplace (dirname filePath) cfg.source "")
                (basename filePath)))])
          ++ [Action.copy filePath
                (pjoin3 cfg.destination
                  (jsReplace (dirname filePath) cfg.source "")
                  (basename filePath))]
      ∧ (processFile cfg runner srcTree relDir filePath dest).ok = true)
    ∧ ((cfg.noscreen = some "copy" ∨ endsWithStr (basename filePath) ".mp4" = false) →
      (existsFS cfg.destination dest
          (pjoin3 cfg.destination (jsReplace (dirname filePath) cfg.source "")
            (basename filePath)) && !cfg.force) = true →
      processFile cfg runner srcTree relDir filePath dest = ⟨dest, [], true⟩)
    ∧ (cfg.noscreen = some "convert" → endsWithStr (basename filePath) ".mp4" = true →
      (existsFS cfg.destination dest
          (pjoin3 cfg.destination (jsReplace (dirname filePath) cfg.source "")
            (replaceExtMp4 (basename filePath))) && !cfg.force) = false →
      (processFile cfg runner srcTree relDir filePath dest).acts
        = (if existsFS cfg.destination dest
              (dirname (pjoin3 cfg.destination
                (jsReplace (dirname filePath) cfg.source "")
                (replaceExtMp4 (basename filePath)))) = true then ([] : List Action)
           else [Action.mkdir (dirname (pjoin3 cfg.destination
                (jsReplace (dirname filePath) cfg.source "")
                (replaceExtMp4 (basename filePath))))])
          ++ [Action.convert filePath
                (pjoin3 cfg.destination
                  (jsReplace (dirname filePath) cfg.source "")
                  (replaceExtMp4 (basename filePath)))]
      ∧ (processFile cfg runner srcTree relDir filePath dest).ok
          = runner filePath
              (pjoin3 cfg.destination
                (jsReplace (dirname filePath) cfg.source "")
                (replaceExtMp4 (basename filePath))))
    ∧ (cfg.noscreen = some "convert" → endsWithStr (basename filePath) ".mp4" = true →
      (existsFS cfg.destination dest
          (pjoin3 cfg.destination (jsReplace (dirname filePath) cfg.source "")
            (replaceExtMp4 (basename filePath))) && !cfg.force) = true →
      processFile cfg runner srcTree relDir filePath dest = ⟨dest, [], true⟩)
    ∧ (cfg.noscreen ≠ some "copy" → cfg.noscreen ≠ some "convert" →
      endsWithStr (basename filePath) ".mp4" = true →
      processFile cfg runner srcTree relDir filePath dest = ⟨dest, [], true⟩) := by
  have hpf : processFile cfg runner srcTree relDir filePath dest
      = noscreenStep cfg runner filePath
          (jsReplace (dirname filePath) cfg.source "") (basename filePath)
          relDir dest := by
    unfold processFile
    rw [if_neg h0]
    rw [if_neg (by simp [h1])]
    rw [if_neg (by simp [List.any_eq_true]; intro s hs; exact (h2 s hs))]
    rw [processScreens_no_match cfg runner filePath
      (jsReplace (dirname filePath) cfg.source "") (basename filePath)
      relDir cfg.screens dest h3]
    simp only [Bool.not_true, Bool.false_eq_true, if_false]
    rw [if_neg (by simp [List.any_eq_true]; intro s hs; exact (h3 s hs))]
    simp
  refine ⟨?_, ?_, ?_, ?_, ?_, ?_⟩
  · intro hn hmp4
    rw [hpf]
    unfold noscreenStep
    rw [if_neg (by simp [hn, hmp4])]
    rw [if_neg (by simp [hn])]
  · intro hcp hex
    rw [hpf]
    unfold noscreenStep
    rw [if_pos (by rcases hcp with h | h <;> simp [h])]
    rw [if_neg (by simp [hex])]
    by_cases hf : existsFS cfg.destination dest
        (dirname (pjoin3 cfg.destination
          (jsReplace (dirname filePath) cfg.source "")
          (basename filePath))) = true
    · constructor <;> simp [hf]
    · constructor <;> simp [hf]
  · intro hcp hex
    rw [hpf]
    unfold noscreenStep
    rw [if_pos (by rcases hcp with h | h <;> simp [h])]
    rw [if_pos hex]
  · intro hn hmp4 hex
    rw [hpf]
    unfold noscreenStep
    rw [if_neg (by simp [hn, hmp4])]
    rw [if_pos (by simp [hn])]
    rw [if_neg (by simp [hex])]
    by_cases hr : runner filePath
        (pjoin3 cfg.destination (jsReplace (dirname filePath) cfg.source "")
          (replaceExtMp4 (basename filePath))) = true
    · by_cases hf : existsFS cfg.destination dest
          (dirname (pjoin3 cfg.destination
            (jsReplace (dirname filePath) cfg.source "")
            (replaceExtMp4 (basename filePath)))) = true
      · constructor <;> simp [hf, hr]
      · constructor <;> simp [hf, hr]
    · simp only [Bool.not_eq_true] at hr
      by_cases hf : existsFS cfg.destination dest
          (dirname (pjoin3 cfg.destination
            (jsReplace (dirname filePath) cfg.source "")
            (replaceExtMp4 (basename filePath)))) = true
      · constructor <;> simp [hf, hr]
      · constructor <;> simp [hf, hr]
  · intro hn hmp4 hex
    rw [hpf]
    unfold noscreenStep
    rw [if_neg (by simp [hn, hmp4])]
    rw [if_pos (by simp [hn])]
    rw [if_pos hex]
  · intro hc hv hmp4
    rw [hpf]
    unfold noscreenStep
    rw [if_neg (by simp [hmp4]; simpa using hc)]
    rw [if_neg (by simpa using hv)]

/-- C5 counterexample: `photo.png` matches no profile and `noscreen` is
absent, yet the file is copied — refuting "when the noscreen
configuration key is absent the file is skipped ... and copying verbatim
happens only when noscreen is 'copy'". -/
theorem noscreen_absent_still_copies_counterexample :
    cfg5.noscreen = none
    ∧ (processFile cfg5 runnerT src5 [] "/src/photo.png" []).acts
        = [Action.copy "/src/photo.png" "/dst/photo.png"] := by
  refine ⟨rfl, ?_⟩
  simp [processFile, processScreens, noscreenStep, listing, existsFS,
    insertDirs, insertFile, cfg5, src5, screenLED, runnerT, pjoin, pjoin3,
    basename, dirname, basenameL, dirnameL, jsReplace, jsReplaceCI,
    includesCI, includesStr, containsL, replaceFirstL, replaceFirstCIL,
    lowerC, startsWithStr, endsWithStr, List.isSuffixOf, List.isPrefixOf]

/-- C5 amended witness: a `.mp4` file matching no profile, `noscreen`
absent — skipped with nothing written. -/
theorem noscreen_behaviour_witness :
    (("/src/movie.mp4" : String) ≠ ""
      ∧ existsFS cfg5.source srcM "/src/movie.mp4" = true
      ∧ (∀ s ∈ cfg5.screens, includesCI (basename "/src/movie.mp4") s.target = false)
      ∧ (∀ s ∈ cfg5.screens, includesCI (basename "/src/movie.mp4") s.search = false))
    ∧ processFile cfg5 runnerT srcM [] "/src/movie.mp4" [] = ⟨[], [], true⟩ := by
  have h0 : ("/src/movie.mp4" : String) ≠ "" := by decide
  have h1 : existsFS cfg5.source srcM "/src/movie.mp4" = true := by
    simp [existsFS, listing, srcM, cfg5, pjoin, startsWithStr]
  have h2 : ∀ s ∈ cfg5.screens,
      includesCI (basename "/src/movie.mp4") s.target = false := by decide
  have h3 : ∀ s ∈ cfg5.screens,
      includesCI (basename "/src/movie.mp4") s.search = false := by decide
  exact ⟨⟨h0, h1, h2, h3⟩,
    (noscreen_behaviour cfg5 runnerT srcM [] "/src/movie.mp4" [] h0 h1 h2 h3).1
      rfl (by decide)⟩


/-! ## C2: the inverse mapping of reconciliation -/

/-- C2 amended: during reconciliation a destination file's conjectured
source is the **single** path obtained by substituting every profile's
targetToken back to its searchPattern cumulatively in table order
(case-sensitively, first occurrence each, over the whole mirrored path);
the file is deleted when nothing exists at that one path and kept when
something does (files can additionally disappear with an orphaned parent
directory, which is pruned by a directory-level check that uses no token
substitution). -/
theorem cleanDestination_file_decision (cfg : Config) (srcTree : List Entry)
    (d : String) (es1 es2 : List Entry) (n : String) :
    (existsFS cfg.source srcTree (inverseSourcePath cfg d n) = false →
      Action.unlink (pjoin d n)
        ∈ (cleanDestination cfg srcTree d (es1 ++ Entry.file n :: es2)).2)
    ∧ (existsFS cfg.source srcTree (inverseSourcePath cfg d n) = true →
      Entry.file n
        ∈ (cleanDestination cfg srcTree d (es1 ++ Entry.file n :: es2)).1) := by
  induction es1 with
  | nil =>
    constructor
    · intro hex
      simp only [List.nil_append, cleanDestination, hex]
      simp
    · intro hex
      simp only [List.nil_append, cleanDestination, hex]
      simp
  | cons e rest ih =>
    rcases e with m | ⟨m, cs⟩
    · by_cases hm : existsFS cfg.source srcTree (inverseSourcePath cfg d m) = true
      · constructor
        · intro hex
          simp only [List.cons_append, cleanDestination, hm]
          simp only [not_true, if_false, ite_true, ite_false]
          simpa using (ih.1 hex)
        · intro hex
          simp only [List.cons_append, cleanDestination, hm]
          simp only [not_true, if_false, ite_true, ite_false]
          simp [ih.2 hex]
      · simp only [Bool.not_eq_true] at hm
        constructor
        · intro hex
          simp only [List.cons_append, cleanDestination, hm]
          simp [ih.1 hex]
        · intro hex
          simp only [List.cons_append, cleanDestination, hm]
          simp [ih.2 hex]
    · by_cases hm : existsFS cfg.source srcTree
          (pjoin (jsReplace d cfg.destination cfg.source) m) = true
      · constructor
        · intro hex
          simp only [List.cons_append, cleanDestination, hm]
          simp [ih.1 hex]
        · intro hex
          simp only [List.cons_append, cleanDestination, hm]
          simp [ih.2 hex]
      · simp only [Bool.not_eq_true] at hm
        constructor
        · intro hex
          simp only [List.cons_append, cleanDestination, hm]
          simp [ih.1 hex]
        · intro hex
          simp only [List.cons_append, cleanDestination, hm]
          simp [ih.2 hex]

/-- C2 counterexample: profiles `(_S1_ → _T_)` and `(_Z_ → _S1_)`, the
destination file `f_T_.mp4`, source containing `f_S1_.mp4`.  Under the
claim's first-existing-substitution rule the origin `/src/f_S1_.mp4`
exists, so the file should be kept; the code substitutes cumulatively
(`_T_` → `_S1_`, then `_S1_` → `_Z_`), checks `/src/f_Z_.mp4`, and
deletes the file. -/
theorem inverse_mapping_cumulative_counterexample :
    (sourceCandidateSpec cfgS srcS "/dst/f_T_.mp4") = some "/src/f_S1_.mp4"
    ∧ Action.unlink "/dst/f_T_.mp4"
        ∈ (cleanDestination cfgS srcS "/dst" [Entry.file "f_T_.mp4"]).2 := by
  constructor <;>
  simp [sourceCandidateSpec, cleanDestination, inverseSourcePath, listing,
    existsFS, cfgS, srcS, screenS1, screenS2, pjoin, jsReplace,
    replaceFirstL, startsWithStr, List.findSome?]

/-- C2 amended witness: a destination file whose cumulative substitution
resolves to nothing is deleted. -/
theorem cleanDestination_file_decision_witness :
    (existsFS cfgS.source srcS (inverseSourcePath cfgS "/dst" "g_T_.mp4") = false)
    ∧ Action.unlink (pjoin "/dst" "g_T_.mp4")
        ∈ (cleanDestination cfgS srcS "/dst"
            ([] ++ Entry.file "g_T_.mp4" :: [])).2 := by
  have hex : existsFS cfgS.source srcS
      (inverseSourcePath cfgS "/dst" "g_T_.mp4") = false := by
    simp [inverseSourcePath, existsFS, listing, cfgS, srcS, screenS1, screenS2,
      pjoin, jsReplace, replaceFirstL, startsWithStr]
  exact ⟨hex,
    (cleanDestination_file_decision cfgS srcS "/dst" [] [] "g_T_.mp4").1 hex⟩

/-! ## C7: idempotence of a repeated pass -/

/-- C7 (code bug): the spec's idempotence property fails.  With the
spec's own scenario profile (search `_LED_`, target `_LED256_`) and a
source clip whose token appears in lower case (`clip_led_1.mp4`), the
first pass produces `clip_LED256_1.mp4`; the second pass inverse-maps it
with a **case-sensitive** substitution to `/src/clip_LED_1.mp4`, which
does not exist, deletes it, and transforms the clip again — two writes
on a pass that the claim requires to perform zero. -/
theorem second_pass_not_idempotent :
    (runOnce runnerT srcLED stLED).1.isRunning = false
    ∧ (runOnce runnerT srcLED (runOnce runnerT srcLED stLED).1).2
        = [Action.unlink "/dst/clip_LED256_1.mp4",
           Action.transform "/src/clip_led_1.mp4" "/dst/clip_LED256_1.mp4"] := by
  constructor <;>
  simp [runOnce, passRun, cleanDestination, inverseSourcePath, processSource,
    processFile, processScreens, noscreenStep, listing, existsFS, insertDirs,
    insertFile, stLED, cfgLED, srcLED, screenLED, runnerT, pjoin, pjoin3,
    basename, dirname, basenameL, dirnameL, jsReplace, jsReplaceCI,
    includesCI, includesStr, containsL, replaceFirstL, replaceFirstCIL,
    lowerC, startsWithStr, endsWithStr, clearForce]


/-! ## C6: the forward path mapping -/

theorem isPrefixOf_append_self (l t : List Char) : l.isPrefixOf (l ++ t) = true := by
  induction l with
  | nil => simp [List.isPrefixOf]
  | cons c cs ih => simp [List.isPrefixOf, ih]

theorem replaceFirstL_append_self (p r b : List Char) :
    replaceFirstL p r (p ++ b) = r ++ b := by
  cases p with
  | nil =>
    cases b with
    | nil => simp [replaceFirstL]
    | cons c t => simp [replaceFirstL, List.isPrefixOf]
  | cons c p' =>
    simp only [List.cons_append, replaceFirstL]
    rw [if_pos]
    · have := List.drop_left (c :: p') b
      simp at this
      simp [this]
    · have := isPrefixOf_append_self (c :: p') b
      simp at this
      simp [this]

theorem jsReplace_append_self (p b r : String) :
    jsReplace (p ++ b) p r = r ++ b := by
  apply String.ext
  simp [jsReplace, String.data_append, replaceFirstL_append_self]

theorem takeWhile_append_all (p : Char → Bool) (l1 l2 : List Char)
    (h : ∀ c ∈ l1, p c = true) :
    (l1 ++ l2).takeWhile p = l1 ++ l2.takeWhile p := by
  induction l1 with
  | nil => simp
  | cons c t ih =>
    have hc := h c (List.mem_cons_self c t)
    simp [List.takeWhile, hc, ih (fun x hx => h x (List.mem_cons_of_mem c hx))]

theorem dropWhile_append_all (p : Char → Bool) (l1 l2 : List Char)
    (h : ∀ c ∈ l1, p c = true) :
    (l1 ++ l2).dropWhile p = l2.dropWhile p := by
  induction l1 with
  | nil => simp
  | cons c t ih =>
    have hc := h c (List.mem_cons_self c t)
    simp [List.dropWhile, hc, ih (fun x hx => h x (List.mem_cons_of_mem c hx))]

theorem data_reverse_shape (a base : String) :
    (a ++ "/" ++ base).data.reverse
      = base.data.reverse ++ '/' :: a.data.reverse := by
  simp [String.data_append]

theorem basename_append_slash (a base : String)
    (h : ∀ c ∈ base.data, c ≠ '/') :
    basename (a ++ "/" ++ base) = base := by
  apply String.ext
  show basenameL (a ++ "/" ++ base).data = base.data
  unfold basenameL
  rw [data_reverse_shape]
  rw [takeWhile_append_all _ _ _ ?side]
  · simp [List.takeWhile]
  case side =>
    intro c hc
    rw [List.mem_reverse] at hc
    simp [h c hc]

theorem dirname_append_slash (a base : String)
    (h : ∀ c ∈ base.data, c ≠ '/') :
    dirname (a ++ "/" ++ base) = a := by
  unfold dirname
  rw [if_pos]
  · apply String.ext
    show dirnameL (a ++ "/" ++ base).data = a.data
    unfold dirnameL
    rw [data_reverse_shape]
    rw [dropWhile_append_all _ _ _ ?side]
    · simp [List.dropWhile]
    case side =>
      intro c hc
      rw [List.mem_reverse] at hc
      simp [h c hc]
  · simp [String.data_append]

theorem append_ne_empty_left (a b : String) (h : a ≠ "") : a ++ b ≠ "" := by
  intro e
  apply h
  have hd := congrArg String.data e
  rw [String.data_append] at hd
  have : a.data = [] := (List.append_eq_nil.mp hd).1
  exact String.ext this

theorem pjoin_empty_right (a : String) : pjoin a "" = a := by
  by_cases h : a = "" <;> simp [pjoin, h]

theorem pjoin_slash (a b : String) (ha : a ≠ "") (hb : b ≠ "")
    (hs : startsWithStr b "/" = true) : pjoin a b = a ++ b := by
  simp [pjoin, ha, hb, hs]

theorem pjoin_name (a b : String) (ha : a ≠ "") (hb : b ≠ "")
    (hs : startsWithStr b "/" = false) : pjoin a b = a ++ "/" ++ b := by
  simp [pjoin, ha, hb, hs]

theorem startsWith_slash_ne_empty (b : String)
    (hs : startsWithStr b "/" = true) : b ≠ "" := by
  intro e
  rw [e] at hs
  simp [startsWithStr, List.isPrefixOf] at hs

/-- C6: the destination path is a pure, deterministic function of the
source-relative path and the profile: for a source file
`source ++ rel ++ "/" ++ base`, the computed output path (the
composition of lines 82–83, 114 and 117) is
`destination ++ rel ++ "/" ++ base'`, where `base'` is `base` with only
the first case-insensitive occurrence of the profile's search pattern
replaced by its target token — the directory part is carried over
unchanged.  Purity/determinism holds by construction: the embedding is a
function of exactly these inputs. -/
theorem destination_path_deterministic (cfg : Config) (s : Screen)
    (rel base : String)
    (hrel : rel = "" ∨ startsWithStr rel "/" = true)
    (hdst : cfg.destination ≠ "")
    (hbase : ∀ c ∈ base.data, c ≠ '/')
    (hout : jsReplaceCI base s.search s.target ≠ "")
    (houts : startsWithStr (jsReplaceCI base s.search s.target) "/" = false) :
    destinationPathOf cfg s (cfg.source ++ rel ++ "/" ++ base)
      = cfg.destination ++ rel ++ "/" ++ jsReplaceCI base s.search s.target := by
  unfold destinationPathOf
  rw [basename_append_slash (cfg.source ++ rel) base hbase]
  rw [dirname_append_slash (cfg.source ++ rel) base hbase]
  rw [jsReplace_append_self cfg.source rel ""]
  have hemp : ("" : String) ++ rel = rel := by
    apply String.ext
    simp [String.data_append]
  rw [hemp]
  unfold pjoin3
  rcases hrel with hrel | hrel
  · subst hrel
    rw [pjoin_empty_right]
    rw [pjoin_name _ _ hdst hout houts]
    apply String.ext
    simp [String.data_append]
  · rw [pjoin_slash _ _ hdst (startsWith_slash_ne_empty rel hrel) hrel]
    rw [pjoin_name _ _ (append_ne_empty_left _ _ hdst) hout houts]

/-- C6 witness. -/
theorem destination_path_deterministic_witness :
    ((("/sub" : String) = "" ∨ startsWithStr "/sub" "/" = true)
      ∧ cfgLED.destination ≠ ""
      ∧ (∀ c ∈ ("clip_led_1.mp4" : String).data, c ≠ '/')
      ∧ jsReplaceCI "clip_led_1.mp4" screenLED.search screenLED.target ≠ ""
      ∧ startsWithStr
          (jsReplaceCI "clip_led_1.mp4" screenLED.search screenLED.target)
          "/" = false)
    ∧ destinationPathOf cfgLED screenLED
          (cfgLED.source ++ "/sub" ++ "/" ++ "clip_led_1.mp4")
        = cfgLED.destination ++ "/sub" ++ "/"
            ++ jsReplaceCI "clip_led_1.mp4" screenLED.search screenLED.target :=
  ⟨⟨Or.inr (by decide), by decide, by decide, by decide, by decide⟩,
   destination_path_deterministic cfgLED screenLED "/sub" "clip_led_1.mp4"
     (Or.inr (by decide)) (by decide) (by decide) (by decide) (by decide)⟩


/-! ## C9: deletions stay under the destination root -/

/-- Joining a name below a directory keeps the directory string as a
prefix. -/
theorem prefix_pjoin (a b : String) : a.data <+: (pjoin a b).data := by
  unfold pjoin
  by_cases ha : a = ""
  · simp [ha]
  · by_cases hb : b = ""
    · simp [ha, hb]
    · by_cases hs : startsWithStr b "/" = true <;>
      simp [ha, hb, hs, String.data_append, List.append_assoc,
        List.prefix_append]

/-- Every path deleted by the reconciliation of a directory `d` extends
`d`. -/
theorem cleanDestination_deletes_prefixed (cfg : Config) (srcTree : List Entry)
    (d : String) (es : List Entry) (a : Action) (p : String)
    (ha : a ∈ (cleanDestination cfg srcTree d es).2)
    (hp : deleteTarget a = some p) : d.data <+: p.data := by
  induction d, es using cleanDestination.induct cfg srcTree with
  | case1 d => simp [cleanDestination] at ha
  | case2 d n cs rest sp hex ih =>
    simp only [cleanDestination] at ha
    rw [if_pos (by simpa using hex)] at ha
    simp at ha
    rcases ha with ha | ha
    · subst ha
      simp [deleteTarget] at hp
      subst hp
      exact prefix_pjoin d n
    · exact ih ha
  | case3 d n cs rest fp sp hex ihc ih =>
    simp only [cleanDestination] at ha
    rw [if_neg (by simpa using hex)] at ha
    simp at ha
    rcases ha with ha | ha
    · exact List.IsPrefix.trans (prefix_pjoin d n) (ihc ha)
    · exact ih ha
  | case4 d n rest sp hex ih =>
    simp only [cleanDestination] at ha
    rw [if_pos (by simpa using hex)] at ha
    simp at ha
    rcases ha with ha | ha
    · subst ha
      simp [deleteTarget] at hp
      subst hp
      exact prefix_pjoin d n
    · exact ih ha
  | case5 d n rest sp hex ih =>
    simp only [cleanDestination] at ha
    rw [if_neg (by simpa using hex)] at ha
    simp at ha
    exact ih ha

/-- The per-screen loop never deletes anything. -/
theorem processScreens_no_deletes (cfg : Config)
    (runner : String → String → Bool) (fp fo fn : String)
    (relDir : List String) (ss : List Screen) (dest : List Entry) :
    ∀ a ∈ (processScreens cfg runner fp fo fn relDir ss dest).acts,
      deleteTarget a = none := by
  induction ss generalizing dest with
  | nil => simp [processScreens]
  | cons s rest ih =>
    intro a ha
    by_cases hm : includesCI fn s.search = true
    · by_cases hx : (existsFS cfg.destination dest
          (pjoin3 cfg.destination fo (jsReplaceCI fn s.search s.target))
          && !cfg.force && !s.force) = true
      · simp only [processScreens, hm, hx] at ha
        simp at ha
        exact ih dest a ha
      · by_cases hf : existsFS cfg.destination dest
            (dirname (pjoin3 cfg.destination fo (jsReplaceCI fn s.search s.target))) = true
        · by_cases hr : runner fp
              (pjoin3 cfg.destination fo (jsReplaceCI fn s.search s.target)) = true
          · simp only [processScreens, hm, hx, hf, hr] at ha
            simp [hf] at ha
            rcases ha with ha | ha
            · subst ha; rfl
            · exact ih _ a ha
          · simp only [processScreens, hm, hx, hf, hr] at ha
            simp [hf, hr] at ha
            subst ha; rfl
        · by_cases hr : runner fp
              (pjoin3 cfg.destination fo (jsReplaceCI fn s.search s.target)) = true
          · simp only [processScreens, hm, hx, hr] at ha
            simp [hf] at ha
            rcases ha with ha | ha | ha
            · subst ha; rfl
            · subst ha; rfl
            · exact ih _ a ha
          · simp only [processScreens, hm, hx, hr] at ha
            simp [hf, hr] at ha
            rcases ha with ha | ha <;> (subst ha; rfl)
    · simp only [processScreens, hm] at ha
      simp at ha
      exact ih dest a ha

/-- The noscreen branch never deletes anything. -/
theorem noscreenStep_no_deletes (cfg : Config)
    (runner : String → String → Bool) (fp fo fn : String)
    (relDir : List String) (dest : List Entry) :
    ∀ a ∈ (noscreenStep cfg runner fp fo fn relDir dest).acts,
      deleteTarget a = none := by
  intro a ha
  by_cases c1 : ((cfg.noscreen == some "copy") || !(endsWithStr fn ".mp4")) = true
  · by_cases c2 : (existsFS cfg.destination dest (pjoin3 cfg.destination fo fn)
        && !cfg.force) = true
    · simp only [noscreenStep, c1, c2] at ha
      simp at ha
    · by_cases hf : existsFS cfg.destination dest
          (dirname (pjoin3 cfg.destination fo fn)) = true
      · simp only [noscreenStep, c1, c2] at ha
        simp [hf] at ha
        subst ha; rfl
      · simp only [noscreenStep, c1, c2] at ha
        simp [hf] at ha
        rcases ha with ha | ha <;> (subst ha; rfl)
  · by_cases c3 : (cfg.noscreen == some "convert") = true
    · by_cases c4 : (existsFS cfg.destination dest
          (pjoin3 cfg.destination fo (replaceExtMp4 fn)) && !cfg.force) = true
      · simp only [noscreenStep, c1, c3, c4] at ha
        simp at ha
      · by_cases hf : existsFS cfg.destination dest
            (dirname (pjoin3 cfg.destination fo (replaceExtMp4 fn))) = true
        · by_cases hr : runner fp
              (pjoin3 cfg.destination fo (replaceExtMp4 fn)) = true
          · simp only [noscreenStep, c1, c3, c4, hr] at ha
            simp [hf] at ha
            subst ha; rfl
          · simp only [noscreenStep, c1, c3, c4, hr] at ha
            simp [hf, hr] at ha
            subst ha; rfl
        · by_cases hr : runner fp
              (pjoin3 cfg.destination fo (replaceExtMp4 fn)) = true
          · simp only [noscreenStep, c1, c3, c4, hr] at ha
            simp [hf] at ha
            rcases ha with ha | ha <;> (subst ha; rfl)
          · simp only [noscreenStep, c1, c3, c4, hr] at ha
            simp [hf, hr] at ha
            rcases ha with ha | ha <;> (subst ha; rfl)
    · simp only [noscreenStep, c1, c3] at ha
      simp at ha


/-- `processFile` never deletes anything. -/
theorem processFile_no_deletes (cfg : Config)
    (runner : String → String → Bool) (srcTree : List Entry)
    (relDir : List String) (filePath : String) (dest : List Entry) :
    ∀ a ∈ (processFile cfg runner srcTree relDir filePath dest).acts,
      deleteTarget a = none := by
  intro a ha
  unfold processFile at ha
  by_cases h0 : filePath = ""
  · simp [h0] at ha
  · rw [if_neg h0] at ha
    by_cases h1 : existsFS cfg.source srcTree filePath = true
    · rw [if_neg (by simp [h1])] at ha
      by_cases h2 : cfg.screens.any
          (fun s => includesCI (basename filePath) s.target) = true
      · rw [if_pos h2] at ha
        simp at ha
      · rw [if_neg (by simp [Bool.not_eq_true] at h2 ⊢; exact h2)] at ha
        by_cases h3 : (processScreens cfg runner filePath
            (jsReplace (dirname filePath) cfg.source "") (basename filePath)
            relDir cfg.screens dest).ok = true
        · rw [if_neg (by simp [h3])] at ha
          by_cases h4 : cfg.screens.any
              (fun s => includesCI (basename filePath) s.search) = true
          · rw [if_pos h4] at ha
            exact processScreens_no_deletes cfg runner _ _ _ relDir cfg.screens dest a ha
          · rw [if_neg (by simp [Bool.not_eq_true] at h4 ⊢; exact h4)] at ha
            simp at ha
            rcases ha with ha | ha
            · exact processScreens_no_deletes cfg runner _ _ _ relDir cfg.screens dest a ha
            · exact noscreenStep_no_deletes cfg runner _ _ _ relDir _ a ha
        · rw [if_pos (by simp [Bool.not_eq_true] at h3 ⊢; exact h3)] at ha
          exact processScreens_no_deletes cfg runner _ _ _ relDir cfg.screens dest a ha
    · rw [if_pos (by simp [h1])] at ha
      simp at ha

/-- The source walk never deletes anything. -/
theorem processSource_no_deletes (cfg : Config)
    (runner : String → String → Bool) (srcTree : List Entry)
    (curDir : String) (relDir : List String) (es : List Entry)
    (dest : List Entry) :
    ∀ a ∈ (processSource cfg runner srcTree curDir relDir es dest).acts,
      deleteTarget a = none := by
  induction curDir, relDir, es, dest using processSource.induct cfg runner srcTree with
  | case1 curDir relDir dest => simp [processSource]
  | case2 curDir relDir e rest dest name hskip ih =>
    intro a ha
    rcases e with n | ⟨n, cs⟩ <;>
      (simp only [processSource] at ha
       rw [if_pos (by simpa using hskip)] at ha
       exact ih a ha)
  | case3 curDir relDir rest dest n cs r hbad name hskip ihc =>
    intro a ha
    simp only [processSource] at ha
    rw [if_neg (by simpa using hskip)] at ha
    rw [if_pos (by simpa using hbad)] at ha
    exact ihc a ha
  | case4 curDir relDir rest dest n cs r hok name hskip ihc ih =>
    intro a ha
    simp only [processSource] at ha
    rw [if_neg (by simpa using hskip)] at ha
    rw [if_neg (by simpa using hok)] at ha
    simp at ha
    rcases ha with ha | ha
    · exact ihc a ha
    · exact ih a ha
  | case5 curDir relDir rest dest n r hbad name hskip =>
    intro a ha
    simp only [processSource] at ha
    rw [if_neg (by simpa using hskip)] at ha
    rw [if_pos (by simpa using hbad)] at ha
    exact processFile_no_deletes cfg runner srcTree relDir _ dest a ha
  | case6 curDir relDir rest dest n r hok name hskip ih =>
    intro a ha
    simp only [processSource] at ha
    rw [if_neg (by simpa using hskip)] at ha
    rw [if_neg (by simpa using hok)] at ha
    simp at ha
    rcases ha with ha | ha
    · exact processFile_no_deletes cfg runner srcTree relDir _ dest a ha
    · exact ih a ha


/-- C9: across a whole pass (reconciliation followed by the source
walk), every deletion targets a path extending the destination root, and
— provided neither configured root is a string prefix of the other —
never a path under the source root; the walk itself deletes nothing. -/
theorem pass_deletes_only_under_destination
    (runner : String → String → Bool) (srcTree : List Entry) (st : St)
    (a : Action) (p : String)
    (hsd : ¬ st.cfg.source.data <+: st.cfg.destination.data)
    (hds : ¬ st.cfg.destination.data <+: st.cfg.source.data)
    (ha : a ∈ (runOnce runner srcTree st).2)
    (hp : deleteTarget a = some p) :
    st.cfg.destination.data <+: p.data ∧ ¬ st.cfg.source.data <+: p.data := by
  by_cases hrun : st.isRunning = true
  · simp [runOnce, hrun] at ha
  · have hmem : a ∈ (passRun runner srcTree st.cfg st.dest).acts := by
      unfold runOnce at ha
      rw [if_neg (by simpa using hrun)] at ha
      by_cases hok : (passRun runner srcTree st.cfg st.dest).ok = true
      · rw [if_pos hok] at ha
        exact ha
      · rw [if_neg hok] at ha
        exact ha
    have hd : st.cfg.destination.data <+: p.data := by
      unfold passRun at hmem
      simp only at hmem
      rcases List.mem_append.mp hmem with h | h
      · exact cleanDestination_deletes_prefixed st.cfg srcTree
          st.cfg.destination st.dest a p h hp
      · have hn := processSource_no_deletes st.cfg runner srcTree
          st.cfg.source [] srcTree _ a h
        rw [hp] at hn
        cases hn
    refine ⟨hd, ?_⟩
    intro hs
    rcases le_total st.cfg.source.data.length st.cfg.destination.data.length with hl | hl
    · exact hsd (List.prefix_of_prefix_length_le hs hd hl)
    · exact hds (List.prefix_of_prefix_length_le hd hs hl)

/-- C9 witness: the orphaned `f_T_.mp4` is deleted below `/dst`, not
below `/src`. -/
theorem pass_deletes_only_under_destination_witness :
    ((¬ stS.cfg.source.data <+: stS.cfg.destination.data)
      ∧ (¬ stS.cfg.destination.data <+: stS.cfg.source.data)
      ∧ Action.unlink "/dst/f_T_.mp4" ∈ (runOnce runnerT srcS stS).2)
    ∧ (stS.cfg.destination.data <+: ("/dst/f_T_.mp4" : String).data
      ∧ ¬ stS.cfg.source.data <+: ("/dst/f_T_.mp4" : String).data) := by
  have hsd : ¬ stS.cfg.source.data <+: stS.cfg.destination.data := by decide
  have hds : ¬ stS.cfg.destination.data <+: stS.cfg.source.data := by decide
  have ha : Action.unlink "/dst/f_T_.mp4" ∈ (runOnce runnerT srcS stS).2 := by
    simp [runOnce, passRun, cleanDestination, inverseSourcePath, processSource,
      processFile, processScreens, noscreenStep, listing, existsFS, insertDirs,
      insertFile, stS, cfgS, srcS, screenS1, screenS2, runnerT, pjoin, pjoin3,
      basename, dirname, basenameL, dirnameL, jsReplace, jsReplaceCI,
      includesCI, includesStr, containsL, replaceFirstL, replaceFirstCIL,
      lowerC, startsWithStr, endsWithStr, clearForce]
  exact ⟨⟨hsd, hds, ha⟩,
    pass_deletes_only_under_destination runnerT srcS stS
      (Action.unlink "/dst/f_T_.mp4") "/dst/f_T_.mp4" hsd hds ha rfl⟩

end Autoconverter
